import Mathlib

/-!
Verification of the `ResponsesService` transport client
(`tools/server/webui` Responses-API service).

The service is shallowly embedded: JavaScript strings become `String` /
`List Char` (the `TextDecoder` byte-to-text step is abstracted at the
code-point level, which is faithful because `TextDecoder` with
`stream: true` reassembles code points split across byte chunks), the
built-in `JSON.parse` becomes an executable `parseJson`, and the
callback interface (`onChunk`, `onModel`, ...) becomes a trace of
`CallbackEvent`s accumulated in request order.
-/

set_option autoImplicit false

namespace ResponsesService

/-- JSON values, the decoded form of `JSON.parse` results.  Numbers are
modelled as integers: every numeric field this service consumes is a
token count. -/
inductive Json where
  | null
  | bool (b : Bool)
  | num (n : Int)
  | str (s : String)
  | arr (elems : List Json)
  | obj (fields : List (String × Json))

/-- Property access `j.k` (via `?.` where the source uses it): a field of
an object, `undefined` (here `none`) on anything else.  JavaScript
objects keep one binding per key; `JSON.parse` collapses duplicate keys,
so first-match lookup is adequate. -/
def Json.getField : Json → String → Option Json
  | .obj fields, k => fields.lookup k
  | _, _ => none

/-- JavaScript truthiness of a JSON value (`undefined` is handled by the
`Option` layer at each use site). -/
def Json.truthy : Json → Bool
  | .null => false
  | .bool b => b
  | .num n => n != 0
  | .str s => s != ""
  | .arr _ => true
  | .obj _ => true

/-- `j.k === '<t>'` for the `type` field: the dispatch comparisons of the
stream and non-stream handlers. -/
def typeIs (j : Json) (t : String) : Bool :=
  match j.getField "type" with
  | some (Json.str s) => s == t
  | _ => false

/-- `j.k || ''` for string-valued fields (`delta`, `text`, `model`):
the field when it is a truthy string, `''` otherwise.  The service only
ever receives strings in these fields; JavaScript's coercion of other
truthy values into strings is not modelled. -/
def Json.strFieldD (j : Json) (k : String) : String :=
  match j.getField k with
  | some (Json.str s) => s
  | _ => ""

/-- `j.k || 0` for the numeric usage counters. -/
def Json.numFieldD (j : Json) (k : String) : Int :=
  match j.getField k with
  | some (Json.num n) => n
  | _ => 0

/-- `!s.trim()`: `s` is empty or whitespace-only.  (JavaScript's
`trim` strips a slightly larger whitespace set than `Char.isWhitespace`;
the difference is irrelevant to every property proved here.) -/
def strBlank (s : String) : Bool :=
  s.data.all Char.isWhitespace

/-- `line.startsWith(tag)` on character lists. -/
def strStarts : List Char → List Char → Bool
  | [], _ => true
  | _ :: _, [] => false
  | p :: ps, c :: cs => p == c && strStarts ps cs

/-! ### An executable model of `JSON.parse`

Fuel-indexed recursive-descent parser for the JSON grammar restricted to
what this service exchanges: `null`, booleans, integers, strings with
the single-character escapes, arrays and objects.  (`\uXXXX` escapes and
fraction/exponent parts of numbers are not modelled; on such inputs the
model fails where `JSON.parse` would succeed, and no claim depends on
them.)  A failing parse models a thrown `SyntaxError`. -/

/-- Skip JSON insignificant whitespace. -/
def skipWs : List Char → List Char
  | c :: cs => if c == ' ' || c == '\n' || c == '\t' || c == '\r' then skipWs cs else c :: cs
  | [] => []

/-- Parse the remainder of a string literal, after the opening quote. -/
def parseStringRest : List Char → Option (String × List Char)
  | [] => none
  | c :: cs =>
    if c == '"' then some ("", cs)
    else if c == '\\' then
      match cs with
      | [] => none
      | e :: cs' =>
        let esc : Option Char :=
          if e == '"' then some '"'
          else if e == '\\' then some '\\'
          else if e == '/' then some '/'
          else if e == 'n' then some '\n'
          else if e == 't' then some '\t'
          else if e == 'r' then some '\r'
          else if e == 'b' then some (Char.ofNat 8)
          else if e == 'f' then some (Char.ofNat 12)
          else none
        match esc with
        | none => none
        | some ch =>
          match parseStringRest cs' with
          | none => none
          | some (s, rest) => some (String.mk (ch :: s.data), rest)
    else
      match parseStringRest cs with
      | none => none
      | some (s, rest) => some (String.mk (c :: s.data), rest)

/-- Digits-to-value accumulation for number literals. -/
def digitsVal (acc : Nat) : List Char → Nat
  | [] => acc
  | c :: cs => digitsVal (acc * 10 + (c.toNat - '0'.toNat)) cs

mutual

/-- Parse one JSON value. -/
def parseValue : Nat → List Char → Option (Json × List Char)
  | 0, _ => none
  | Nat.succ fuel, l =>
    match skipWs l with
    | [] => none
    | c :: cs =>
      if c == '"' then
        match parseStringRest cs with
        | some (s, rest) => some (Json.str s, rest)
        | none => none
      else if c == '[' then
        match skipWs cs with
        | ']' :: rest => some (Json.arr [], rest)
        | l' =>
          match parseValue fuel l' with
          | some (v, rest) => parseArrTail fuel rest [v]
          | none => none
      else if c == '{' then
        match skipWs cs with
        | '}' :: rest => some (Json.obj [], rest)
        | l' => parseMember fuel l' []
      else if c == 't' then
        match cs with
        | 'r' :: 'u' :: 'e' :: rest => some (Json.bool true, rest)
        | _ => none
      else if c == 'f' then
        match cs with
        | 'a' :: 'l' :: 's' :: 'e' :: rest => some (Json.bool false, rest)
        | _ => none
      else if c == 'n' then
        match cs with
        | 'u' :: 'l' :: 'l' :: rest => some (Json.null, rest)
        | _ => none
      else if c == '-' then
        match cs.span Char.isDigit with
        | ([], _) => none
        | (ds, rest) => some (Json.num (-(digitsVal 0 ds : Int)), rest)
      else if c.isDigit then
        match (c :: cs).span Char.isDigit with
        | (ds, rest) => some (Json.num (digitsVal 0 ds : Int), rest)
      else none

/-- Parse `, value`* `]` after the elements in `acc`. -/
def parseArrTail : Nat → List Char → List Json → Option (Json × List Char)
  | 0, _, _ => none
  | Nat.succ fuel, l, acc =>
    match skipWs l with
    | ',' :: r =>
      match parseValue fuel r with
      | some (v, rest) => parseArrTail fuel rest (acc ++ [v])
      | none => none
    | ']' :: r => some (Json.arr acc, r)
    | _ => none

/-- Parse `"key" : value` then the rest of an object body. -/
def parseMember : Nat → List Char → List (String × Json) → Option (Json × List Char)
  | 0, _, _ => none
  | Nat.succ fuel, l, acc =>
    match skipWs l with
    | '"' :: cs =>
      match parseStringRest cs with
      | some (k, rest) =>
        match skipWs rest with
        | ':' :: r =>
          match parseValue fuel r with
          | some (v, rest') => parseObjTail fuel rest' (acc ++ [(k, v)])
          | none => none
        | _ => none
      | none => none
    | _ => none

/-- Parse `, member`* `}` after the members in `acc`. -/
def parseObjTail : Nat → List Char → List (String × Json) → Option (Json × List Char)
  | 0, _, _ => none
  | Nat.succ fuel, l, acc =>
    match skipWs l with
    | ',' :: r => parseMember fuel r acc
    | '}' :: r => some (Json.obj acc, r)
    | _ => none

end

/-- `JSON.parse`: `none` models a thrown `SyntaxError`. -/
def parseJson (s : String) : Option Json :=
  match parseValue (s.length + 1) s.data with
  | some (v, rest) => if skipWs rest = [] then some v else none
  | none => none

/-! ### Callback interface

`ChatMessageTimings` is the caller-facing timing shape; `CallbackEvent`
records one invocation of one of the optional callbacks.  A run of a
handler produces the list of invocations in order. -/

/-- The normalized timing counters handed to `onTimings` / `onComplete`. -/
structure ChatMessageTimings where
  prompt_n : Int
  predicted_n : Int
  cache_n : Int
deriving DecidableEq

/-- `convertUsageToTimings`: Responses-API usage counters to
`ChatMessageTimings`; each `|| 0` default is a missing-field default. -/
def convertUsageToTimings (usage : Json) : ChatMessageTimings :=
  { prompt_n := usage.numFieldD "input_tokens"
    predicted_n := usage.numFieldD "output_tokens"
    cache_n :=
      match usage.getField "input_tokens_details" with
      | some d => d.numFieldD "cached_tokens"
      | none => 0 }

/-- One observed callback invocation.  `model` carries the raw JSON value
passed to `onModel` (`parsed.model` / `data.model`); `complete` carries
the four arguments of `onComplete`; `error` carries the error message
passed to `onError`. -/
inductive CallbackEvent where
  | chunk (text : String)
  | reasoningChunk (text : String)
  | toolCallChunk (text : String)
  | model (value : Json)
  | timings (t : ChatMessageTimings)
  | complete (response : String) (reasoning : Option String)
      (t : Option ChatMessageTimings) (toolCalls : Option String)
  | error (message : String)

/-! ### Stream event parser (`handleStreamResponse`) -/

/-- The per-request accumulator of `handleStreamResponse`
(`aggregatedContent`, `fullReasoningContent`, `lastTimings`,
`modelEmitted`) together with the trace of callback invocations. -/
structure LineState where
  aggregatedContent : String
  fullReasoningContent : String
  lastTimings : Option ChatMessageTimings
  modelEmitted : Bool
  trace : List CallbackEvent

def initLineState : LineState :=
  { aggregatedContent := ""
    fullReasoningContent := ""
    lastTimings := none
    modelEmitted := false
    trace := [] }

/-- Record one callback invocation. -/
def emit (st : LineState) (e : CallbackEvent) : LineState :=
  { st with trace := st.trace ++ [e] }

/-- The characters of `'event: '`. -/
def eventTag : List Char := ['e', 'v', 'e', 'n', 't', ':', ' ']

/-- The characters of `'data: '`. -/
def dataTag : List Char := ['d', 'a', 't', 'a', ':', ' ']

/-- The idempotent model emission pattern, shared by lines 221–224
(`parsed.model`) and 259–262 (`responseData.model`):
`if (x.model && !modelEmitted) { modelEmitted = true; onModel?.(x.model) }`. -/
def modelEmitStep (st : LineState) (x : Json) : LineState :=
  match x.getField "model" with
  | some v =>
    if v.truthy && !st.modelEmitted then emit { st with modelEmitted := true } (.model v)
    else st
  | none => st

/-- The top-level model check on every parsed event. -/
def stageModel (st : LineState) (parsed : Json) : LineState :=
  modelEmitStep st parsed

/-- The `response.output_text.delta` branch: accumulate the delta and,
when not aborted, invoke `onChunk` with exactly the delta. -/
def stageTextDelta (aborted : Bool) (st : LineState) (parsed : Json) : LineState :=
  if typeIs parsed "response.output_text.delta" then
    let delta := parsed.strFieldD "delta"
    if delta = "" then st
    else
      let st' := { st with aggregatedContent := st.aggregatedContent ++ delta }
      if aborted then st' else emit st' (.chunk delta)
  else st

/-- The `response.reasoning_summary_text.delta` branch. -/
def stageReasoningDelta (aborted : Bool) (st : LineState) (parsed : Json) : LineState :=
  if typeIs parsed "response.reasoning_summary_text.delta" then
    let delta := parsed.strFieldD "delta"
    if delta = "" then st
    else
      let st' := { st with fullReasoningContent := st.fullReasoningContent ++ delta }
      if aborted then st' else emit st' (.reasoningChunk delta)
  else st

/-- The `response.function_call_arguments.delta` branch: forwarded to
`onToolCallChunk`, not accumulated. -/
def stageToolDelta (aborted : Bool) (st : LineState) (parsed : Json) : LineState :=
  if typeIs parsed "response.function_call_arguments.delta" then
    let delta := parsed.strFieldD "delta"
    if delta = "" then st
    else if aborted then st
    else emit st (.toolCallChunk delta)
  else st

/-- The timings emission of the completed branch: `if (responseData.usage)
{ lastTimings = convertUsageToTimings(...); onTimings?.(lastTimings, undefined) }`. -/
def timingsStep (st : LineState) (x : Json) : LineState :=
  match x.getField "usage" with
  | some u =>
    if u.truthy then
      let t := convertUsageToTimings u
      emit { st with lastTimings := some t } (.timings t)
    else st
  | none => st

/-- The `response.completed` / `response.done` branch: timings from the
usage payload, then idempotent model emission from `responseData.model`. -/
def stageCompleted (st : LineState) (parsed : Json) : LineState :=
  if typeIs parsed "response.completed" || typeIs parsed "response.done" then
    let responseData :=
      match parsed.getField "response" with
      | some r => if r.truthy then r else parsed
      | none => parsed
    modelEmitStep (timingsStep st responseData) responseData
  else st

/-- Process one complete line of the SSE stream (the body of
`for (const line of lines)`): the abort check breaks the loop (with a
constant in-chunk signal, returning the state unchanged per remaining
line is extensionally the `break`), `event: ` lines are ignored,
`data: ` lines are stripped, `[DONE]` is ignored, the payload is parsed
(a parse failure is logged and skipped), and the four event branches run
in source order after the top-level model check. -/
def processLine (aborted : Bool) (st : LineState) (line : List Char) : LineState :=
  if aborted then st
  else if strStarts eventTag line then st
  else if strStarts dataTag line then
    let dataStr := String.mk (line.drop 6)
    if dataStr = "[DONE]" then st
    else
      match parseJson dataStr with
      | none => st
      | some parsed =>
        stageCompleted
          (stageToolDelta aborted
            (stageReasoningDelta aborted
              (stageTextDelta aborted (stageModel st parsed) parsed) parsed) parsed)
          parsed
  else st

/-- The accumulator plus the undelivered partial line (`buffer`). -/
structure StreamState where
  line : LineState
  buffer : List Char

def initStreamState : StreamState := ⟨initLineState, []⟩

/-- Split on `'\n'` exactly as `buffer.split('\n')`: always at least one
segment, a trailing newline yields a trailing empty segment.  (The
result is never `[]`, so prepending to the head segment is total.) -/
def splitNL : List Char → List (List Char)
  | [] => [[]]
  | c :: cs =>
    if c = '\n' then [] :: splitNL cs
    else (c :: (splitNL cs).headD []) :: (splitNL cs).tail

/-- All segments but the last: the lines left to iterate after
`buffer = lines.pop()`. -/
def dropTail : List (List Char) → List (List Char)
  | [] => []
  | [_] => []
  | a :: b :: r => a :: dropTail (b :: r)

/-- The last segment (the popped new buffer); `[]` on the empty list,
which `splitNL` never returns. -/
def lastZ : List (List Char) → List Char
  | [] => []
  | [a] => a
  | _ :: b :: r => lastZ (b :: r)

/-- Consume one decoded chunk: append to the buffer, split on newline,
retain the last (possibly partial) segment as the new buffer, and
process every complete line. -/
def feed (aborted : Bool) (st : StreamState) (chunk : List Char) : StreamState :=
  let pieces := splitNL (st.buffer ++ chunk)
  { line := (dropTail pieces).foldl (processLine aborted) st.line
    buffer := lastZ pieces }

/-- The read loop of `handleStreamResponse`.  `sig n` is the state of
`abortSignal?.aborted` after `n` completed reads (the signal can only
flip during an `await`); the returned `Nat` is the read count at loop
exit, at which the post-loop abort check is evaluated.  The checks
mirror the source: before each read, after each read, and per line
inside `feed` (where the signal equals its post-read value). -/
def streamRun (sig : Nat → Bool) : StreamState → Nat → List (List Char) → StreamState × Nat
  | st, k, chunks =>
    if sig k then (st, k)
    else
      match chunks with
      | [] => (st, k + 1)
      | c :: rest =>
        if sig (k + 1) then (st, k + 1)
        else streamRun sig (feed (sig (k + 1)) st c) (k + 1) rest

/-- `handleStreamResponse`, observed as its callback trace: run the read
loop over the decoded chunks; unless the signal is set at loop exit,
invoke `onComplete` once with the aggregated text, the aggregated
reasoning (`undefined` when empty), the last-seen timings and
`undefined` tool calls. -/
def handleStreamResponse (sig : Nat → Bool) (chunks : List (List Char)) : StreamState :=
  let r := streamRun sig initStreamState 0 chunks
  if sig r.2 then r.1
  else
    { r.1 with
      line := emit r.1.line
        (.complete r.1.line.aggregatedContent
          (if r.1.line.fullReasoningContent = "" then none
           else some r.1.line.fullReasoningContent)
          r.1.line.lastTimings none) }

/-- A request whose cancellation signal is never set. -/
def neverAborted : Nat → Bool := fun _ => false

/-! ### Non-streaming handler (`handleNonStreamResponse`) -/

/-- The message of the `noResponseError` thrown both for a blank body
and for missing assistant content. -/
def noContentMsg : String := "No response received from server. Please try again."

/-- Placeholder display text for the engine-specific message of the
`SyntaxError` thrown by `JSON.parse` on an unparseable body. -/
def jsonErrMsg : String := "Unexpected token in JSON"

/-- Placeholder display text for the engine-specific message of the
`TypeError` thrown by the output walk: accessing `.type` on `null`, or
`for..of` over a truthy non-iterable `content`. -/
def typeErrMsg : String := "TypeError: value is not iterable"

/-- The text contributed by one entry of a `message` item's `content`
array.  `contentItem.type` is a property access: it throws a
`TypeError` on a `null` element; on every other JSON value it is
`undefined` or the field, and only `output_text`-typed entries
contribute `contentItem.text || ''`. -/
def partsTextE (tag : String) : List Json → String → Except String String
  | [], acc => .ok acc
  | p :: ps, acc =>
    match p with
    | Json.null => .error typeErrMsg
    | _ => partsTextE tag ps (acc ++ (if typeIs p tag then p.strFieldD "text" else ""))

/-- The assistant text contributed by one non-null `output` item
(`if (item.type === 'message' && item.content) for (const contentItem
of item.content) ...`): a falsy `content` skips the item; `for..of`
iterates an array element-wise and a string character-wise (characters
are strings with no `type` field, so they contribute nothing), and
throws a `TypeError` on any other truthy value. -/
def messageContrib (item : Json) : Except String String :=
  if typeIs item "message" then
    match item.getField "content" with
    | some content =>
      if content.truthy then
        match content with
        | Json.arr parts => partsTextE "output_text" parts ""
        | Json.str _ => .ok ""
        | _ => .error typeErrMsg
      else .ok ""
    | none => .ok ""
  else .ok ""

/-- The reasoning text contributed by one non-null `output` item
(`for (const contentItem of item.content || [])` on `reasoning`-typed
items), with the same `for..of` iterability behaviour. -/
def reasoningContrib (item : Json) : Except String String :=
  if typeIs item "reasoning" then
    match item.getField "content" with
    | some content =>
      if content.truthy then
        match content with
        | Json.arr parts => partsTextE "reasoning_summary_text" parts ""
        | Json.str _ => .ok ""
        | _ => .error typeErrMsg
      else .ok ""
    | none => .ok ""
  else .ok ""

/-- `data.output` when it is an array (`data.output &&
Array.isArray(data.output)`), else nothing to walk. -/
def outputItems (d : Json) : List Json :=
  match d.getField "output" with
  | some (Json.arr l) => l
  | _ => []

/-- The output walk of `handleNonStreamResponse` (lines 317–334):
accumulate assistant text and reasoning text over the items in order.
`item.type` throws a `TypeError` on a `null` item; a thrown `TypeError`
aborts the walk and propagates to the handler's catch block. -/
def walkOutput : List Json → String → String → Except String (String × String)
  | [], c, r => .ok (c, r)
  | item :: rest, c, r =>
    match item with
    | Json.null => .error typeErrMsg
    | _ =>
      match messageContrib item with
      | .error e => .error e
      | .ok mc =>
        match reasoningContrib item with
        | .error e => .error e
        | .ok rc => walkOutput rest (c ++ mc) (r ++ rc)

/-- `handleNonStreamResponse`, observed as its callback trace and its
settled value (`.ok content` for a resolved promise, `.error m` for a
rejection with an error whose message is `m`): blank body check,
`JSON.parse`, eager `onModel`, `output` walk (which may throw a
`TypeError`), `no content` check, optional timings, then a single
`onComplete`.  Every thrown error is routed through the catch block,
which invokes `onError` once and rethrows. -/
def handleNonStreamResponse (responseText : String) :
    List CallbackEvent × Except String String :=
  if strBlank responseText then ([.error noContentMsg], .error noContentMsg)
  else
    match parseJson responseText with
    | none => ([.error jsonErrMsg], .error jsonErrMsg)
    | some data =>
      let modelEvs : List CallbackEvent :=
        match data.getField "model" with
        | some m => if m.truthy then [.model m] else []
        | none => []
      match walkOutput (outputItems data) "" "" with
      | .error e => (modelEvs ++ [.error e], .error e)
      | .ok (content, reasoningContent) =>
        if strBlank content then
          (modelEvs ++ [.error noContentMsg], .error noContentMsg)
        else
          let timings :=
            match data.getField "usage" with
            | some u => if u.truthy then some (convertUsageToTimings u) else none
            | none => none
          (modelEvs ++
            [.complete content
              (if reasoningContent = "" then none else some reasoningContent) timings none],
           .ok content)

/-- The non-streaming dispatch of `sendMessage` after a success status:
`sendMessage` executes `return ResponsesService.handleNonStreamResponse(...)`
without `await`, so a rejection of the returned promise never enters
`sendMessage`'s own catch block — the enclosing call adds no callback
invocations of its own on this path. -/
def sendMessageNonStream (responseText : String) :
    List CallbackEvent × Except String String :=
  handleNonStreamResponse responseText

/-! ### Error classifier (`parseErrorResponse`) -/

/-- The one error shape exposed to the caller: `name` is the stable kind
tag (`ServerError` for an HTTP client-error rejection, `HttpError` for
other HTTP failures), `message` the display text. -/
structure ClassifiedError where
  name : String
  message : String
deriving DecidableEq

/-- `parseErrorResponse`: the body is first treated as JSON carrying
`error.message` (`errorData.error?.message || 'Unknown server error'`);
status 400 is tagged `ServerError`, any other status `HttpError`.  An
unparseable body falls back to a message built from the numeric status
and the status text. -/
def parseErrorResponse (status : Nat) (statusText : String) (body : String) :
    ClassifiedError :=
  match parseJson body with
  | some j =>
    let message :=
      match j.getField "error" with
      | some er =>
        match er.getField "message" with
        | some (Json.str m) => if m = "" then "Unknown server error" else m
        | _ => "Unknown server error"
      | none => "Unknown server error"
    { name := if status = 400 then "ServerError" else "HttpError", message := message }
  | none =>
    { name := "HttpError"
      message := "Server error (" ++ toString status ++ "): " ++ statusText }

/-! ### Content converter (`convertMessagesToInput`) -/

/-- A typed attachment of a persisted conversation record
(`DatabaseMessageExtra`), one variant per `AttachmentType` tag. -/
inductive Extra where
  | image (base64Url : String)
  | textFile (name content : String)
  | legacyContext (name content : String)
  | audio (base64Data mimeType : String)
  | pdf (name content : String) (processedAsImages : Bool) (images : Option (List String))

/-- A persisted conversation record (`DatabaseMessage` plus its optional
`extra` list; an absent `extra` is the empty list). -/
structure DbMessage where
  role : String
  content : String
  extra : List Extra

/-- One entry of an API-shaped message's content-part array
(`ApiChatMessageContentPart`).  `other` is any unrecognized tag, which
the converter maps to an empty `input_text` part. -/
inductive ApiContentPart where
  | text (t : String)
  | imageUrl (url : Option String)
  | inputAudio (data format : Option String)
  | other (ty : String)

/-- An API-shaped message (`ApiChatMessageData`): bare-string or
content-part-array content. -/
structure ApiMessage where
  role : String
  content : String ⊕ List ApiContentPart

/-- The dual-shape input of `convertMessagesToInput`, resolved by the
source's `'id' in msg && 'convId' in msg && 'timestamp' in msg` probe. -/
inductive InMessage where
  | db (m : DbMessage)
  | api (m : ApiMessage)

/-- A request-side wire content part. -/
inductive WireContentPart where
  | inputText (text : String)
  | inputImage (imageUrl : Option String)
  | inputAudio (data format : String)

/-- Wire message content: bare string or part sequence. -/
inductive WireContent where
  | str (s : String)
  | parts (ps : List WireContentPart)

/-- One wire message of the `input` array. -/
structure WireMessage where
  role : String
  content : WireContent

/-- Substring search for `mimeType.includes('wav')`. -/
def hasSub (needle : List Char) : List Char → Bool
  | [] => strStarts needle []
  | c :: cs => strStarts needle (c :: cs) || hasSub needle cs

/-- `mimeType.includes('wav')`. -/
def containsWav (mime : String) : Bool :=
  hasSub "wav".data mime.data

/-- The wire parts contributed by one attachment (the per-tag branches
of `convertExtrasToContent`'s loop). -/
def extraParts : Extra → List WireContentPart
  | .image url => [.inputImage (some url)]
  | .textFile name content =>
    [.inputText ("\n\n--- File: " ++ name ++ " ---\n" ++ content)]
  | .legacyContext name content =>
    [.inputText ("\n\n--- File: " ++ name ++ " ---\n" ++ content)]
  | .audio data mime =>
    [.inputAudio data (if containsWav mime then "wav" else "mp3")]
  | .pdf name content processedAsImages images =>
    match processedAsImages, images with
    | true, some imgs => imgs.map (fun u => .inputImage (some u))
    | _, _ =>
      [.inputText ("\n\n--- PDF File: " ++ name ++ " ---\n" ++ content)]

/-- `convertExtrasToContent`: an `input_text` part for the record's own
text when truthy, then the per-attachment parts in order. -/
def convertExtrasToContent (m : DbMessage) : List WireContentPart :=
  (if m.content = "" then [] else [.inputText m.content]) ++ m.extra.flatMap extraParts

/-- `convertApiContentParts`: re-tag API content parts onto the three
wire part tags (`part.input_audio?.data || ''`,
`part.input_audio?.format || 'wav'`, unrecognized tags to an empty
`input_text`). -/
def convertApiContentParts (parts : List ApiContentPart) : List WireContentPart :=
  parts.map fun p =>
    match p with
    | .text t => .inputText t
    | .imageUrl url => .inputImage url
    | .inputAudio data format => .inputAudio (data.getD "") (format.getD "wav")
    | .other _ => .inputText ""

/-- The wire message computed for one input message (lines 392–420 of
the converter): `system` maps to `developer`, a record without
attachments keeps bare-string content, otherwise the part sequence. -/
def wireOfMessage : InMessage → WireMessage
  | .db m =>
    { role := if m.role = "system" then "developer" else m.role
      content :=
        if m.extra.isEmpty then WireContent.str m.content
        else WireContent.parts (convertExtrasToContent m) }
  | .api m =>
    { role := if m.role = "system" then "developer" else m.role
      content :=
        match m.content with
        | .inl s => WireContent.str s
        | .inr parts => WireContent.parts (convertApiContentParts parts) }

/-- The filtering rule: a message whose role mapped to `developer` and
whose content is an empty-or-blank bare string is skipped. -/
def dropWire (w : WireMessage) : Bool :=
  w.role == "developer" &&
    (match w.content with
     | .str s => strBlank s
     | .parts _ => false)

/-- `convertMessagesToInput`: convert each message and push it unless
the developer-blank filter drops it. -/
def convertMessagesToInput : List InMessage → List WireMessage
  | [] => []
  | m :: rest =>
    let w := wireOfMessage m
    if dropWire w then convertMessagesToInput rest
    else w :: convertMessagesToInput rest

/-! ### Request body construction (`sendMessage`, lines 52–80)

A body entry's value is either a JSON value or `undefined`
(`max_output_tokens` is explicitly assigned `undefined` for a null or
zero limit); `JSON.stringify` then omits `undefined`-valued keys. -/

/-- A JavaScript value stored in the request-body object. -/
inductive JsVal where
  | undef
  | val (j : Json)

/-- Property assignment `body[k] = v`: replace the binding in place when
the key exists (JavaScript keeps the original insertion position), else
append the new key at the end. -/
def setKey : List (String × JsVal) → String → JsVal → List (String × JsVal)
  | [], k, v => [(k, v)]
  | p :: rest, k, v =>
    if p.1 == k then (k, v) :: rest else p :: setKey rest k v

/-- `JSON.stringify` field selection: `undefined`-valued keys are
omitted from the serialized object. -/
def serializeBody (body : List (String × JsVal)) : List (String × Json) :=
  body.filterMap fun p =>
    match p.2 with
    | .undef => none
    | .val j => some (p.1, j)

/-- JSON encoding of a wire content part as `JSON.stringify` sees it
(an absent optional `image_url` is an omitted key). -/
def encodeWirePart : WireContentPart → Json
  | .inputText t => .obj [("type", .str "input_text"), ("text", .str t)]
  | .inputImage u =>
    .obj ([("type", .str "input_image")] ++
      (match u with
       | some s => [("image_url", Json.str s)]
       | none => []))
  | .inputAudio data format =>
    .obj [("type", .str "input_audio"),
          ("input_audio", .obj [("data", .str data), ("format", .str format)])]

def encodeWireContent : WireContent → Json
  | .str s => .str s
  | .parts ps => .arr (ps.map encodeWirePart)

def encodeWireMessage (w : WireMessage) : Json :=
  .obj [("role", .str w.role), ("content", encodeWireContent w.content)]

/-- The `custom` option: a JSON string to be parsed, or an object passed
directly. -/
inductive CustomParam where
  | str (s : String)
  | obj (fields : List (String × Json))

/-- The options of `sendMessage` that shape the request body.
`max_tokens : Option (Option Int)` distinguishes undefined
(`none`), null (`some none`) and a number (`some (some n)`). -/
structure SendOptions where
  stream : Option Bool
  model : Option String
  temperature : Option Json
  max_tokens : Option (Option Int)
  top_p : Option Json
  custom : Option CustomParam
  disableReasoningFormat : Bool

/-- Merge parsed custom parameters into the body
(`Object.assign(requestBody, customParams)`). -/
def mergeCustom (body : List (String × JsVal)) (fields : List (String × Json)) :
    List (String × JsVal) :=
  fields.foldl (fun acc p => setKey acc p.1 (.val p.2)) body

/-- The unconditional opening of the request-body literal: the `input`
messages, `stream ?? true`, `store: false`. -/
def bodyBase (msgs : List InMessage) (o : SendOptions) : List (String × JsVal) :=
  [("input", .val (.arr ((convertMessagesToInput msgs).map encodeWireMessage))),
   ("stream", .val (.bool (o.stream.getD true))),
   ("store", .val (.bool false))]

/-- `if (options.model) requestBody.model = options.model`. -/
def bodyWithModel (o : SendOptions) (b : List (String × JsVal)) : List (String × JsVal) :=
  match o.model with
  | some m => if m = "" then b else setKey b "model" (.val (.str m))
  | none => b

/-- A sampling parameter forwarded verbatim when explicitly set
(`temperature`, `top_p`). -/
def bodyWithOptJson (k : String) (x : Option Json) (b : List (String × JsVal)) :
    List (String × JsVal) :=
  match x with
  | some t => setKey b k (.val t)
  | none => b

/-- `if (max_tokens !== undefined) requestBody.max_output_tokens =
max_tokens !== null && max_tokens !== 0 ? max_tokens : undefined`. -/
def bodyWithMaxTokens (o : SendOptions) (b : List (String × JsVal)) :
    List (String × JsVal) :=
  match o.max_tokens with
  | some mt =>
    setKey b "max_output_tokens"
      (match mt with
       | some n => if n = 0 then .undef else .val (.num n)
       | none => .undef)
  | none => b

/-- The default reasoning-effort hint unless explicitly disabled. -/
def bodyWithReasoning (o : SendOptions) (b : List (String × JsVal)) :
    List (String × JsVal) :=
  if !o.disableReasoningFormat then
    setKey b "reasoning" (.val (.obj [("effort", Json.str "medium")]))
  else b

/-- The custom shallow-merge, applied last (a string `custom` is
`JSON.parse`d, a failure is logged and skipped; `Object.assign` with a
parsed non-object value is a no-op for primitives and is not modelled
for the index-keyed array/string cases the service never sends). -/
def bodyWithCustom (o : SendOptions) (b : List (String × JsVal)) :
    List (String × JsVal) :=
  match o.custom with
  | some (.obj fs) => mergeCustom b fs
  | some (.str s) =>
    if s = "" then b
    else
      match parseJson s with
      | some (.obj fs) => mergeCustom b fs
      | _ => b
  | none => b

/-- The request body built by `sendMessage` (lines 52–80): the body
literal, then the conditional assignments in source order, then the
custom shallow-merge last, so caller overrides win over computed
defaults. -/
def buildRequestBody (msgs : List InMessage) (o : SendOptions) :
    List (String × JsVal) :=
  bodyWithCustom o
    (bodyWithReasoning o
      (bodyWithOptJson "top_p" o.top_p
        (bodyWithMaxTokens o
          (bodyWithOptJson "temperature" o.temperature
            (bodyWithModel o (bodyBase msgs o))))))

/-! ### Helper lemmas -/

/-- Does a callback event record an `onError` invocation? -/
def isErrorEv : CallbackEvent → Bool
  | .error _ => true
  | _ => false

/-- Does a callback event record an `onComplete` invocation? -/
def isCompleteEv : CallbackEvent → Bool
  | .complete _ _ _ _ => true
  | _ => false

/-- Does a callback event record an `onModel` invocation? -/
def isModelEv : CallbackEvent → Bool
  | .model _ => true
  | _ => false

end ResponsesService

namespace ResponsesService

/-! ### C8: usage conversion -/

/-- C8.  `convertUsageToTimings` is a total function (it is a Lean `def`);
every missing counter defaults to zero, and the usage payload
`{input_tokens: 10, output_tokens: 5, input_tokens_details: {cached_tokens: 2}}`
maps to exactly `{prompt_n: 10, predicted_n: 5, cache_n: 2}`. -/
theorem convertUsageToTimingsSpec :
    (∀ u : Json, u.getField "input_tokens" = none →
      (convertUsageToTimings u).prompt_n = 0) ∧
    (∀ u : Json, u.getField "output_tokens" = none →
      (convertUsageToTimings u).predicted_n = 0) ∧
    (∀ u : Json, u.getField "input_tokens_details" = none →
      (convertUsageToTimings u).cache_n = 0) ∧
    convertUsageToTimings
      (Json.obj [("input_tokens", Json.num 10), ("output_tokens", Json.num 5),
        ("input_tokens_details", Json.obj [("cached_tokens", Json.num 2)])]) =
      ⟨10, 5, 2⟩ := by
  refine ⟨?_, ?_, ?_, rfl⟩ <;> intro u h <;>
    simp [convertUsageToTimings, Json.numFieldD, h]

/-- Witness for C8: the missing-field defaults evaluated on the empty object. -/
theorem convertUsageToTimingsSpec_witness :
    (convertUsageToTimings (Json.obj [])).prompt_n = 0 ∧
    (convertUsageToTimings (Json.obj [])).predicted_n = 0 ∧
    (convertUsageToTimings (Json.obj [])).cache_n = 0 :=
  ⟨convertUsageToTimingsSpec.1 (Json.obj []) rfl,
   convertUsageToTimingsSpec.2.1 (Json.obj []) rfl,
   convertUsageToTimingsSpec.2.2.1 (Json.obj []) rfl⟩

/-! ### C7: HTTP error classification -/

/-- C7.  `parseErrorResponse` returns exactly one classified error: when
the body parses as JSON with a non-empty `error.message` string, the
message is that field's value and the name is `ServerError` exactly for
status 400 (the client-error rejection) and `HttpError` otherwise; when
the body is not parseable JSON, the message is built from the numeric
status and status text with name `HttpError`. -/
theorem parseErrorResponseSpec (status : Nat) (statusText body : String) :
    (∀ j er m, parseJson body = some j → j.getField "error" = some er →
      er.getField "message" = some (Json.str m) → m ≠ "" →
      (parseErrorResponse status statusText body).message = m ∧
      (parseErrorResponse status statusText body).name =
        (if status = 400 then "ServerError" else "HttpError")) ∧
    (parseJson body = none →
      parseErrorResponse status statusText body =
        ⟨"HttpError", "Server error (" ++ toString status ++ "): " ++ statusText⟩) := by
  constructor
  · intro j er m hp he hm hne
    simp [parseErrorResponse, hp, he, hm, hne]
  · intro hp
    simp [parseErrorResponse, hp]

/-- Witness for C7: a parsed `error.message` body at status 400 and an
unparseable body at status 502. -/
theorem parseErrorResponseSpec_witness :
    (parseErrorResponse 400 "Bad Request"
        "\x7b\"error\":\x7b\"message\":\"boom\"\x7d\x7d").message = "boom" ∧
    (parseErrorResponse 400 "Bad Request"
        "\x7b\"error\":\x7b\"message\":\"boom\"\x7d\x7d").name = "ServerError" ∧
    parseErrorResponse 502 "Bad Gateway" "oops" =
      ⟨"HttpError", "Server error (502): Bad Gateway"⟩ := by
  have h := (parseErrorResponseSpec 400 "Bad Request"
    "\x7b\"error\":\x7b\"message\":\"boom\"\x7d\x7d").1
    (Json.obj [("error", Json.obj [("message", Json.str "boom")])])
    (Json.obj [("message", Json.str "boom")]) "boom" rfl rfl rfl (by decide)
  have h2 := (parseErrorResponseSpec 502 "Bad Gateway" "oops").2 rfl
  exact ⟨h.1, by rw [h.2]; rfl, by rw [h2]; rfl⟩

/-! ### C2 / C10: non-streaming "no content" handling -/

/-- Counterexample for C2 as stated: the valid JSON body
`{"output":[{"type":"message","content":true}]}` has no `message`-typed
item with any `output_text` content, yet the `for..of` over the truthy
non-iterable `content: true` throws a `TypeError`, so the call rejects
with the `TypeError`'s message — not the "no content" error the claim
asserts for every such body. -/
theorem nonStreamNoContentCounterexample :
    (sendMessageNonStream
      "\x7b\"output\":[\x7b\"type\":\"message\",\"content\":true\x7d]\x7d").2 =
      Except.error typeErrMsg ∧
    typeErrMsg ≠ noContentMsg :=
  ⟨rfl, by decide⟩

/-- C2 (amended).  For a body that is blank, or parses to JSON whose
`output` walk completes without a `TypeError` (no `null` items, no
truthy non-iterable `content`) and yields only blank assistant text,
the non-streaming path rejects with the "no content" error, invokes no
completion callback, and — counting both `handleNonStreamResponse` and
the enclosing `sendMessage` (which returns the handler's promise without
awaiting it, so its own catch never adds an invocation) — invokes the
error callback exactly once. -/
theorem nonStreamNoContentErrorAmended (text : String)
    (h : strBlank text = true ∨
      ∃ d c r, parseJson text = some d ∧
        walkOutput (outputItems d) "" "" = Except.ok (c, r) ∧ strBlank c = true) :
    (sendMessageNonStream text).2 = Except.error noContentMsg ∧
    (sendMessageNonStream text).1.countP isErrorEv = 1 ∧
    (sendMessageNonStream text).1.countP isCompleteEv = 0 := by
  have blankCase : strBlank text = true →
      (sendMessageNonStream text).2 = Except.error noContentMsg ∧
      (sendMessageNonStream text).1.countP isErrorEv = 1 ∧
      (sendMessageNonStream text).1.countP isCompleteEv = 0 := by
    intro hb
    simp [sendMessageNonStream, handleNonStreamResponse, hb, isErrorEv, isCompleteEv]
  rcases h with hb | ⟨d, c, r, hp, hw, hc⟩
  · exact blankCase hb
  · by_cases hb : strBlank text = true
    · exact blankCase hb
    · rcases hm : d.getField "model" with _ | v
      · simp [sendMessageNonStream, handleNonStreamResponse, hb, hp, hw, hc, hm,
          isErrorEv, isCompleteEv]
      · cases htv : v.truthy <;>
          simp [sendMessageNonStream, handleNonStreamResponse, hb, hp, hw, hc, hm, htv,
            isErrorEv, isCompleteEv, List.countP_append, List.countP_cons]

/-- Witness for the amended C2: the empty body (blank branch) and a
parseable body with an empty `output` array, whose walk succeeds with
no text. -/
theorem nonStreamNoContentErrorAmended_witness :
    ((sendMessageNonStream "").2 = Except.error noContentMsg ∧
      (sendMessageNonStream "").1.countP isErrorEv = 1 ∧
      (sendMessageNonStream "").1.countP isCompleteEv = 0) ∧
    ((sendMessageNonStream "\x7b\"output\":[]\x7d").2 = Except.error noContentMsg ∧
      (sendMessageNonStream "\x7b\"output\":[]\x7d").1.countP isErrorEv = 1 ∧
      (sendMessageNonStream "\x7b\"output\":[]\x7d").1.countP isCompleteEv = 0) :=
  ⟨nonStreamNoContentErrorAmended "" (Or.inl (by decide)),
   nonStreamNoContentErrorAmended "\x7b\"output\":[]\x7d"
     (Or.inr ⟨Json.obj [("output", Json.arr [])], "", "", rfl, rfl, by decide⟩)⟩

/-- Counterexample for C10 as stated: at the body
`{"model":"m1","output":[{"type":"message","content":5}]}` — a truthy
model field, no extractable assistant text — `onModel` does fire first,
but the walk then throws a `TypeError` on the truthy non-iterable
`content: 5`, so the recorded trace ends in the `TypeError`'s message
rather than the "no content" error the claim asserts. -/
theorem nonStreamModelBeforeNoContentCounterexample :
    (handleNonStreamResponse
      "\x7b\"model\":\"m1\",\"output\":[\x7b\"type\":\"message\",\"content\":5\x7d]\x7d").1 =
      [CallbackEvent.model (Json.str "m1"), CallbackEvent.error typeErrMsg] ∧
    typeErrMsg ≠ noContentMsg :=
  ⟨rfl, by decide⟩

/-- C10 (amended).  In the non-streaming path the model callback fires
before the assistant text is validated: a non-blank parsed body
carrying a truthy `model` field whose `output` walk completes without a
`TypeError` and yields only blank assistant text produces exactly the
trace `onModel(model)` then `onError("no content")`, and the call still
rejects — a model callback does not imply success. -/
theorem nonStreamModelBeforeNoContentAmended (text : String) (d m : Json) (c r : String)
    (hb : strBlank text = false) (hp : parseJson text = some d)
    (hm : d.getField "model" = some m) (ht : m.truthy = true)
    (hw : walkOutput (outputItems d) "" "" = Except.ok (c, r))
    (hc : strBlank c = true) :
    (handleNonStreamResponse text).1 =
      [CallbackEvent.model m, CallbackEvent.error noContentMsg] ∧
    (handleNonStreamResponse text).2 = Except.error noContentMsg := by
  simp [handleNonStreamResponse, hb, hp, hm, ht, hw, hc]

/-- Witness for the amended C10: a body with a model name and an empty
`output`. -/
theorem nonStreamModelBeforeNoContentAmended_witness :
    (handleNonStreamResponse "\x7b\"model\":\"m1\",\"output\":[]\x7d").1 =
      [CallbackEvent.model (Json.str "m1"), CallbackEvent.error noContentMsg] ∧
    (handleNonStreamResponse "\x7b\"model\":\"m1\",\"output\":[]\x7d").2 =
      Except.error noContentMsg :=
  nonStreamModelBeforeNoContentAmended "\x7b\"model\":\"m1\",\"output\":[]\x7d"
    (Json.obj [("model", Json.str "m1"), ("output", Json.arr [])])
    (Json.str "m1") "" ""
    (by decide) rfl rfl (by decide) rfl (by decide)

/-! ### C6: message conversion and the developer-blank filter -/

/-- C6.  `convertMessagesToInput` returns at most one wire message per
input message; no output message is a `developer`-role bare string that
is blank (the filter drops exactly those); and a message whose wire
content is the sequence form is never dropped. -/
theorem convertMessagesToInputSpec (msgs : List InMessage) :
    (convertMessagesToInput msgs).length ≤ msgs.length ∧
    (∀ w ∈ convertMessagesToInput msgs, w.role = "developer" →
      ∀ s, w.content = WireContent.str s → strBlank s = false) ∧
    (∀ m ∈ msgs, (∃ ps, (wireOfMessage m).content = WireContent.parts ps) →
      wireOfMessage m ∈ convertMessagesToInput msgs) := by
  induction msgs with
  | nil => exact ⟨Nat.le_refl 0, fun w hw => absurd hw (List.not_mem_nil _),
      fun m hm => absurd hm (List.not_mem_nil _)⟩
  | cons m rest ih =>
    obtain ⟨ihLen, ihBlank, ihParts⟩ := ih
    by_cases hd : dropWire (wireOfMessage m) = true
    · have hconv : convertMessagesToInput (m :: rest) = convertMessagesToInput rest := by
        simp [convertMessagesToInput, hd]
      refine ⟨?_, ?_, ?_⟩
      · rw [hconv]; exact Nat.le_succ_of_le ihLen
      · rw [hconv]; exact ihBlank
      · intro m' hm' hps
        rcases List.mem_cons.mp hm' with hEq | hMem
        · subst hEq
          obtain ⟨ps, hps⟩ := hps
          exact absurd hd (by simp [dropWire, hps])
        · rw [hconv]; exact ihParts m' hMem hps
    · have hconv : convertMessagesToInput (m :: rest) =
          wireOfMessage m :: convertMessagesToInput rest := by
        simp [convertMessagesToInput, hd]
      refine ⟨?_, ?_, ?_⟩
      · rw [hconv]; exact Nat.succ_le_succ ihLen
      · intro w hw hrole s hcontent
        rw [hconv] at hw
        rcases List.mem_cons.mp hw with hEq | hMem
        · subst hEq
          by_contra hblank
          exact hd (by
            simp only [dropWire, hrole, hcontent]
            simp [Bool.not_eq_false] at hblank
            simp [hblank])
        · exact ihBlank w hMem hrole s hcontent
      · intro m' hm' hps
        rw [hconv]
        rcases List.mem_cons.mp hm' with hEq | hMem
        · subst hEq; exact List.mem_cons_self _ _
        · exact List.mem_cons_of_mem _ (ihParts m' hMem hps)

/-- Witness for C6: a blank system message is dropped, a parts-form
message survives, and the count bound holds on the two-element input. -/
theorem convertMessagesToInputSpec_witness :
    (convertMessagesToInput
        [InMessage.api ⟨"system", Sum.inl " "⟩,
         InMessage.db ⟨"user", "hi", [Extra.image "u1"]⟩]).length ≤ 2 ∧
    wireOfMessage (InMessage.db ⟨"user", "hi", [Extra.image "u1"]⟩) ∈
      convertMessagesToInput
        [InMessage.api ⟨"system", Sum.inl " "⟩,
         InMessage.db ⟨"user", "hi", [Extra.image "u1"]⟩] := by
  have h := convertMessagesToInputSpec
    [InMessage.api ⟨"system", Sum.inl " "⟩,
     InMessage.db ⟨"user", "hi", [Extra.image "u1"]⟩]
  refine ⟨h.1, h.2.2 _ (by simp) ?_⟩
  exact ⟨convertExtrasToContent ⟨"user", "hi", [Extra.image "u1"]⟩, rfl⟩

/-! ### Buffer-splitting lemmas for the stream loop -/

theorem splitNL_ne_nil (l : List Char) : splitNL l ≠ [] := by
  cases l with
  | nil => simp [splitNL]
  | cons c cs =>
    simp only [splitNL]
    split <;> simp

/-- Splitting a concatenation: all segments of the left part, with the
seam segment joined to the first segment of the right part. -/
def glue (A B : List (List Char)) : List (List Char) :=
  dropTail A ++ ((lastZ A ++ B.headD []) :: B.tail)

theorem glue_cons (a : List Char) (A B : List (List Char)) (h : A ≠ []) :
    glue (a :: A) B = a :: glue A B := by
  cases A with
  | nil => exact absurd rfl h
  | cons a' A' => simp [glue, dropTail, lastZ]

theorem splitNL_append (xs ys : List Char) :
    splitNL (xs ++ ys) = glue (splitNL xs) (splitNL ys) := by
  induction xs with
  | nil =>
    rw [List.nil_append]
    cases hB : splitNL ys with
    | nil => exact absurd hB (splitNL_ne_nil ys)
    | cons b B' => simp [glue, splitNL, dropTail, lastZ]
  | cons c cs ih =>
    by_cases hc : c = '\n'
    · subst hc
      rw [List.cons_append,
        show splitNL ('\n' :: (cs ++ ys)) = [] :: splitNL (cs ++ ys) from by simp [splitNL],
        ih,
        show splitNL ('\n' :: cs) = [] :: splitNL cs from by simp [splitNL],
        glue_cons _ _ _ (splitNL_ne_nil cs)]
    · rw [List.cons_append]
      simp only [splitNL, if_neg hc, ih]
      cases hA : splitNL cs with
      | nil => exact absurd hA (splitNL_ne_nil cs)
      | cons a A' =>
        cases A' with
        | nil => simp [glue, dropTail, lastZ]
        | cons a2 A'' =>
          simp only [List.headD_cons, List.tail_cons]
          rw [glue_cons a (a2 :: A'') _ (by simp)]
          simp only [List.headD_cons, List.tail_cons]
          rw [glue_cons (c :: a) (a2 :: A'') _ (by simp)]

theorem mem_splitNL_noNL (l : List Char) :
    ∀ p ∈ splitNL l, '\n' ∉ p := by
  induction l with
  | nil =>
    intro p hp
    simp [splitNL] at hp
    simp [hp]
  | cons c cs ih =>
    intro p hp
    by_cases hc : c = '\n'
    · subst hc
      simp only [splitNL, if_pos rfl] at hp
      rcases List.mem_cons.mp hp with h | h
      · simp [h]
      · exact ih p h
    · simp only [splitNL, if_neg hc] at hp
      cases hA : splitNL cs with
      | nil => exact absurd hA (splitNL_ne_nil cs)
      | cons a A' =>
        rw [hA] at hp
        simp only [List.headD_cons, List.tail_cons] at hp
        rcases List.mem_cons.mp hp with h | h
        · subst h
          intro hmem
          rcases List.mem_cons.mp hmem with h' | h'
          · exact hc h'.symm
          · exact ih a (hA ▸ List.mem_cons_self _ _) h'
        · exact ih p (hA ▸ List.mem_cons_of_mem _ h)

theorem splitNL_of_noNL (l : List Char) (h : '\n' ∉ l) : splitNL l = [l] := by
  induction l with
  | nil => rfl
  | cons c cs ih =>
    have hc : c ≠ '\n' := fun he => h (he ▸ List.mem_cons_self _ _)
    have hcs : '\n' ∉ cs := fun hm => h (List.mem_cons_of_mem _ hm)
    simp [splitNL, if_neg hc, ih hcs]

theorem splitNL_append_newline (xs rest : List Char) (h : '\n' ∉ xs) :
    splitNL (xs ++ '\n' :: rest) = xs :: splitNL rest := by
  induction xs with
  | nil => simp [splitNL]
  | cons c cs ih =>
    have hc : c ≠ '\n' := fun he => h (he ▸ List.mem_cons_self _ _)
    have hcs : '\n' ∉ cs := fun hm => h (List.mem_cons_of_mem _ hm)
    rw [List.cons_append]
    simp only [splitNL, if_neg hc, ih hcs, List.headD_cons, List.tail_cons]

theorem lastZ_mem (A : List (List Char)) (h : A ≠ []) : lastZ A ∈ A := by
  induction A with
  | nil => exact absurd rfl h
  | cons a A' ih =>
    cases A' with
    | nil => simp [lastZ]
    | cons b r => exact List.mem_cons_of_mem _ (ih (by simp))

theorem dropTail_append (X C : List (List Char)) (h : C ≠ []) :
    dropTail (X ++ C) = X ++ dropTail C := by
  induction X with
  | nil => rfl
  | cons x X' ih =>
    cases hXC : X' ++ C with
    | nil => exact absurd (List.append_eq_nil.mp hXC).2 h
    | cons z zs =>
      rw [List.cons_append, hXC, dropTail, ← hXC, ih, List.cons_append]

theorem lastZ_append (X C : List (List Char)) (h : C ≠ []) :
    lastZ (X ++ C) = lastZ C := by
  induction X with
  | nil => rfl
  | cons x X' ih =>
    cases hXC : X' ++ C with
    | nil => exact absurd (List.append_eq_nil.mp hXC).2 h
    | cons z zs =>
      rw [List.cons_append, hXC, lastZ, ← hXC, ih]

/-- Feeding two chunks in sequence is feeding their concatenation: the
retained partial-line buffer makes chunk boundaries invisible. -/
theorem feed_append (ab : Bool) (st : StreamState) (a b : List Char) :
    feed ab (feed ab st a) b = feed ab st (a ++ b) := by
  have hA := splitNL_ne_nil (st.buffer ++ a)
  have hlast : '\n' ∉ lastZ (splitNL (st.buffer ++ a)) :=
    mem_splitNL_noNL _ _ (lastZ_mem _ hA)
  have hC : splitNL (lastZ (splitNL (st.buffer ++ a)) ++ b) =
      (lastZ (splitNL (st.buffer ++ a)) ++ (splitNL b).headD []) :: (splitNL b).tail := by
    rw [splitNL_append, splitNL_of_noNL _ hlast]
    simp [glue, dropTail, lastZ]
  have hAB : splitNL (st.buffer ++ (a ++ b)) =
      dropTail (splitNL (st.buffer ++ a)) ++
        ((lastZ (splitNL (st.buffer ++ a)) ++ (splitNL b).headD []) :: (splitNL b).tail) := by
    rw [← List.append_assoc, splitNL_append]
    rfl
  simp only [feed]
  rw [hC, hAB, dropTail_append _ _ (by simp), lastZ_append _ _ (by simp),
    List.foldl_append]

/-- Folding `feed` over a non-empty chunk list is one `feed` of the
joined stream. -/
theorem foldl_feed_join (ab : Bool) (rest : List (List Char)) :
    ∀ (c : List Char) (st : StreamState),
      List.foldl (feed ab) st (c :: rest) = feed ab st (c ++ rest.flatten) := by
  induction rest with
  | nil => intro c st; simp
  | cons d r ih =>
    intro c st
    rw [List.foldl_cons, ih d (feed ab st c), feed_append]
    rfl

/-- With a never-set signal, the read loop is a plain fold of `feed`. -/
theorem streamRun_never (chunks : List (List Char)) :
    ∀ (st : StreamState) (k : Nat),
      streamRun neverAborted st k chunks =
        (List.foldl (feed false) st chunks, k + chunks.length + 1) := by
  induction chunks with
  | nil => intro st k; rw [streamRun]; rfl
  | cons c rest ih =>
    intro st k
    rw [streamRun]
    show streamRun neverAborted (feed false st c) (k + 1) rest = _
    rw [ih]
    have : k + 1 + rest.length + 1 = k + (rest.length + 1) + 1 := by omega
    rw [this]
    rfl

/-! ### C1: chunk-boundary invariance -/

/-- C1.  For every SSE payload and every way of splitting it into reads,
`handleStreamResponse` produces the same final state — in particular the
same aggregated text passed to the completion callback and the same full
callback trace — as one unsplit read; and the retained buffer never
contains a newline, i.e. no complete line awaits parsing: a data line is
parsed only once its terminating newline has arrived. -/
theorem streamChunkBoundaryInvariance (chunks : List (List Char)) :
    handleStreamResponse neverAborted chunks =
      handleStreamResponse neverAborted [chunks.flatten] ∧
    '\n' ∉ (handleStreamResponse neverAborted chunks).buffer := by
  have core : List.foldl (feed false) initStreamState chunks =
      feed false initStreamState chunks.flatten := by
    cases chunks with
    | nil => rfl
    | cons c rest => exact foldl_feed_join false rest c initStreamState
  have single : List.foldl (feed false) initStreamState [chunks.flatten] =
      feed false initStreamState chunks.flatten := rfl
  constructor
  · unfold handleStreamResponse
    rw [streamRun_never, streamRun_never, core, single]
    simp [neverAborted]
  · unfold handleStreamResponse
    rw [streamRun_never, core]
    show '\n' ∉ (feed false initStreamState chunks.flatten).buffer
    unfold feed
    exact mem_splitNL_noNL _ _ (lastZ_mem _ (splitNL_ne_nil _))

/-! ### C5: cancellation before the first byte -/

/-- C5.  When the cancellation signal is already set before the first
read, `handleStreamResponse` exits at the first abort check: no callback
of any kind is invoked (the trace is empty, so in particular no
completion and no error callback fire) and the run terminates normally
with the untouched initial state.  More generally, whenever the signal
is observed set at the top of the read loop, the loop exits immediately
with the state unchanged — no further callbacks, no error. -/
theorem streamAbortedBeforeFirstRead (sig : Nat → Bool) (chunks : List (List Char)) :
    (sig 0 = true →
      handleStreamResponse sig chunks = initStreamState ∧
      (handleStreamResponse sig chunks).line.trace = []) ∧
    (∀ (st : StreamState) (k : Nat), sig k = true →
      streamRun sig st k chunks = (st, k)) := by
  have hstop : ∀ (st : StreamState) (k : Nat), sig k = true →
      streamRun sig st k chunks = (st, k) := by
    intro st k h
    rw [streamRun.eq_def]
    simp [h]
  refine ⟨?_, hstop⟩
  intro h
  have heq : handleStreamResponse sig chunks = initStreamState := by
    unfold handleStreamResponse
    rw [hstop initStreamState 0 h, if_pos h]
  exact ⟨heq, by rw [heq]; rfl⟩

/-- Witness for C5: the constantly-set signal over a non-empty stream. -/
theorem streamAbortedBeforeFirstRead_witness :
    handleStreamResponse (fun _ => true) [['x']] = initStreamState ∧
    (handleStreamResponse (fun _ => true) [['x']]).line.trace = [] :=
  (streamAbortedBeforeFirstRead (fun _ => true) [['x']]).1 rfl

/-! ### C3: model emission is idempotent -/

/-- The number of `onModel` invocations recorded in a trace. -/
def countModel (tr : List CallbackEvent) : Nat :=
  tr.countP isModelEv

/-- The model-emission invariant: at most one `onModel` invocation, and
none at all while the `modelEmitted` flag is still clear. -/
def ModelInv (st : LineState) : Prop :=
  countModel st.trace ≤ (if st.modelEmitted then 1 else 0)

theorem countModel_append (a b : List CallbackEvent) :
    countModel (a ++ b) = countModel a + countModel b :=
  List.countP_append _ _ _

theorem modelEmitStep_inv (st : LineState) (x : Json) (h : ModelInv st) :
    ModelInv (modelEmitStep st x) := by
  unfold modelEmitStep
  split
  · split
    · rename_i v _ ht
      have hflag : st.modelEmitted = false := by
        rcases Bool.and_eq_true_iff.mp ht with ⟨_, hne⟩
        simpa using hne
      unfold ModelInv at h ⊢
      rw [hflag] at h
      simp at h
      have hcount : countModel (emit { st with modelEmitted := true }
            (CallbackEvent.model v)).trace = countModel st.trace + 1 := by
        simp [emit, countModel, List.countP_append, List.countP_cons, isModelEv]
      rw [hcount, h]
      simp [emit]
    · exact h
  · exact h

theorem stageModel_inv (st : LineState) (p : Json) (h : ModelInv st) :
    ModelInv (stageModel st p) :=
  modelEmitStep_inv st p h

theorem emit_nonmodel_inv (st : LineState) (e : CallbackEvent)
    (he : isModelEv e = false) (h : ModelInv st) : ModelInv (emit st e) := by
  unfold ModelInv at h ⊢
  simp only [emit, countModel_append]
  simp only [countModel, List.countP_cons, List.countP_nil, he]
  simpa using h

theorem emit_keeps_flag (st : LineState) (e : CallbackEvent) :
    (emit st e).modelEmitted = st.modelEmitted := rfl

theorem stageTextDelta_inv (ab : Bool) (st : LineState) (p : Json) (h : ModelInv st) :
    ModelInv (stageTextDelta ab st p) := by
  unfold stageTextDelta
  dsimp only
  split
  · split
    · exact h
    · split
      · exact h
      · exact emit_nonmodel_inv _ _ rfl h
  · exact h

theorem stageReasoningDelta_inv (ab : Bool) (st : LineState) (p : Json) (h : ModelInv st) :
    ModelInv (stageReasoningDelta ab st p) := by
  unfold stageReasoningDelta
  dsimp only
  split
  · split
    · exact h
    · split
      · exact h
      · exact emit_nonmodel_inv _ _ rfl h
  · exact h

theorem stageToolDelta_inv (ab : Bool) (st : LineState) (p : Json) (h : ModelInv st) :
    ModelInv (stageToolDelta ab st p) := by
  unfold stageToolDelta
  dsimp only
  split
  · split
    · exact h
    · split
      · exact h
      · exact emit_nonmodel_inv _ _ rfl h
  · exact h

theorem timingsStep_inv (st : LineState) (x : Json) (h : ModelInv st) :
    ModelInv (timingsStep st x) := by
  unfold timingsStep
  split
  · split
    · exact emit_nonmodel_inv _ _ rfl h
    · exact h
  · exact h

theorem stageCompleted_inv (st : LineState) (p : Json) (h : ModelInv st) :
    ModelInv (stageCompleted st p) := by
  unfold stageCompleted
  split
  · exact modelEmitStep_inv _ _ (timingsStep_inv _ _ h)
  · exact h

theorem processLine_inv (ab : Bool) (st : LineState) (l : List Char) (h : ModelInv st) :
    ModelInv (processLine ab st l) := by
  unfold processLine
  dsimp only
  split
  · exact h
  · split
    · exact h
    · split
      · split
        · exact h
        · split
          · exact h
          · exact stageCompleted_inv _ _
              (stageToolDelta_inv _ _ _
                (stageReasoningDelta_inv _ _ _
                  (stageTextDelta_inv _ _ _ (stageModel_inv _ _ h))))
      · exact h

theorem foldl_processLine_inv (ab : Bool) (lines : List (List Char)) :
    ∀ st : LineState, ModelInv st → ModelInv (lines.foldl (processLine ab) st) := by
  induction lines with
  | nil => intro st h; exact h
  | cons l rest ih =>
    intro st h
    exact ih _ (processLine_inv ab st l h)

theorem feed_inv (ab : Bool) (st : StreamState) (c : List Char) (h : ModelInv st.line) :
    ModelInv (feed ab st c).line :=
  foldl_processLine_inv ab _ _ h

theorem streamRun_inv (sig : Nat → Bool) (chunks : List (List Char)) :
    ∀ (st : StreamState) (k : Nat), ModelInv st.line →
      ModelInv (streamRun sig st k chunks).1.line := by
  induction chunks with
  | nil =>
    intro st k h
    rw [streamRun.eq_def]
    dsimp only
    split
    · exact h
    · exact h
  | cons c rest ih =>
    intro st k h
    rw [streamRun.eq_def]
    dsimp only
    split
    · exact h
    · split
      · exact h
      · exact ih _ _ (feed_inv _ _ _ h)

/-- C3.  For every cancellation signal and every chunk sequence, the
model callback is recorded at most once in the trace of
`handleStreamResponse`: once the `modelEmitted` flag is set, every later
`model` field (top-level or on completed/done events) is ignored. -/
theorem streamModelEmittedAtMostOnce (sig : Nat → Bool) (chunks : List (List Char)) :
    countModel (handleStreamResponse sig chunks).line.trace ≤ 1 := by
  have hinit : ModelInv initLineState := by
    unfold ModelInv initLineState countModel
    simp
  have hrun : ModelInv (streamRun sig initStreamState 0 chunks).1.line :=
    streamRun_inv sig chunks initStreamState 0 hinit
  have hfin : ModelInv (handleStreamResponse sig chunks).line := by
    unfold handleStreamResponse
    dsimp only
    split
    · exact hrun
    · exact emit_nonmodel_inv _ _ rfl hrun
  unfold ModelInv at hfin
  rcases h : (handleStreamResponse sig chunks).line.modelEmitted
  all_goals simp [h] at hfin ⊢
  all_goals omega

/-! ### C4: a malformed event is skipped, not fatal -/

/-- Processing a `data: ` line reduces to the payload dispatch. -/
theorem processLine_data (st : LineState) (e : String) :
    processLine false st (dataTag ++ e.data) =
      (if e = "[DONE]" then st
       else
         match parseJson e with
         | none => st
         | some parsed =>
           stageCompleted
             (stageToolDelta false
               (stageReasoningDelta false
                 (stageTextDelta false (stageModel st parsed) parsed) parsed) parsed)
             parsed) := rfl

/-- A well-formed `response.output_text.delta` line appends its delta
and invokes the chunk callback with exactly the delta. -/
theorem processLine_deltaLine (st : LineState) (e d : String)
    (hne : e ≠ "[DONE]")
    (hp : parseJson e = some (Json.obj
      [("type", Json.str "response.output_text.delta"), ("delta", Json.str d)]))
    (hd : d ≠ "") :
    processLine false st (dataTag ++ e.data) =
      emit { st with aggregatedContent := st.aggregatedContent ++ d } (.chunk d) := by
  have h2 : processLine false st (dataTag ++ e.data) =
      (if d = "" then st
       else emit { st with aggregatedContent := st.aggregatedContent ++ d } (.chunk d)) := by
    rw [processLine_data, if_neg hne, hp]
    exact rfl
  rw [h2, if_neg hd]

/-- A `data: ` line whose payload fails to parse leaves the state
untouched (the decode error is logged and the event skipped). -/
theorem processLine_noParse (st : LineState) (e : String)
    (hne : e ≠ "[DONE]") (hp : parseJson e = none) :
    processLine false st (dataTag ++ e.data) = st := by
  rw [processLine_data, if_neg hne, hp]

/-- C4.  A stream of three newline-terminated `data:` lines — a valid
delta carrying `d1`, a line whose payload is not parseable JSON, and a
valid delta carrying `d2` — delivers both deltas to the chunk callback
in order, skips the malformed line, and completes once with the
concatenation `d1 ++ d2`: one malformed event never terminates the
stream. -/
theorem streamMalformedLineSkipped (d1 d2 e1 bad e2 : String)
    (h1 : parseJson e1 = some (Json.obj
      [("type", Json.str "response.output_text.delta"), ("delta", Json.str d1)]))
    (h2 : parseJson bad = none)
    (h3 : parseJson e2 = some (Json.obj
      [("type", Json.str "response.output_text.delta"), ("delta", Json.str d2)]))
    (hd1 : d1 ≠ "") (hd2 : d2 ≠ "")
    (hn1 : '\n' ∉ e1.data) (hn2 : '\n' ∉ bad.data) (hn3 : '\n' ∉ e2.data)
    (hb1 : e1 ≠ "[DONE]") (hb2 : bad ≠ "[DONE]") (hb3 : e2 ≠ "[DONE]") :
    (handleStreamResponse neverAborted
      [(dataTag ++ e1.data) ++ '\n' ::
        ((dataTag ++ bad.data) ++ '\n' :: ((dataTag ++ e2.data) ++ ['\n']))]).line.trace =
    [CallbackEvent.chunk d1, CallbackEvent.chunk d2,
     CallbackEvent.complete (d1 ++ d2) none none none] := by
  have hnl : ∀ s : String, '\n' ∉ s.data → '\n' ∉ dataTag ++ s.data := by
    intro s hs hmem
    rcases List.mem_append.mp hmem with h | h
    · simp [dataTag] at h
    · exact hs h
  have hsp : splitNL ((dataTag ++ e1.data) ++ '\n' ::
      ((dataTag ++ bad.data) ++ '\n' :: ((dataTag ++ e2.data) ++ ['\n']))) =
      [dataTag ++ e1.data, dataTag ++ bad.data, dataTag ++ e2.data, []] := by
    rw [splitNL_append_newline _ _ (hnl e1 hn1), splitNL_append_newline _ _ (hnl bad hn2),
      show (dataTag ++ e2.data) ++ ['\n'] = (dataTag ++ e2.data) ++ '\n' :: [] from rfl,
      splitNL_append_newline _ _ (hnl e2 hn3)]
    rfl
  have hfeed : List.foldl (feed false) initStreamState
      [(dataTag ++ e1.data) ++ '\n' ::
        ((dataTag ++ bad.data) ++ '\n' :: ((dataTag ++ e2.data) ++ ['\n']))] =
      ⟨processLine false (processLine false (processLine false initLineState
          (dataTag ++ e1.data)) (dataTag ++ bad.data)) (dataTag ++ e2.data), []⟩ := by
    show feed false initStreamState _ = _
    unfold feed
    rw [show initStreamState.buffer ++ ((dataTag ++ e1.data) ++ '\n' ::
        ((dataTag ++ bad.data) ++ '\n' :: ((dataTag ++ e2.data) ++ ['\n']))) =
      (dataTag ++ e1.data) ++ '\n' ::
        ((dataTag ++ bad.data) ++ '\n' :: ((dataTag ++ e2.data) ++ ['\n'])) from rfl, hsp]
    rfl
  rw [processLine_deltaLine _ _ _ hb1 h1 hd1, processLine_noParse _ _ hb2 h2,
    processLine_deltaLine _ _ _ hb3 h3 hd2] at hfeed
  unfold handleStreamResponse
  rw [streamRun_never, hfeed]
  rfl

/-- Witness for C4: concrete valid deltas `"A"`, `"B"` around the
malformed payload `{nope`. -/
theorem streamMalformedLineSkipped_witness :
    (handleStreamResponse neverAborted
      [(dataTag ++ "\x7b\"type\":\"response.output_text.delta\",\"delta\":\"A\"\x7d".data) ++ '\n' ::
        ((dataTag ++ "\x7bnope".data) ++ '\n' ::
          ((dataTag ++ "\x7b\"type\":\"response.output_text.delta\",\"delta\":\"B\"\x7d".data) ++
            ['\n']))]).line.trace =
    [CallbackEvent.chunk "A", CallbackEvent.chunk "B",
     CallbackEvent.complete ("A" ++ "B") none none none] :=
  streamMalformedLineSkipped "A" "B"
    "\x7b\"type\":\"response.output_text.delta\",\"delta\":\"A\"\x7d"
    "\x7bnope"
    "\x7b\"type\":\"response.output_text.delta\",\"delta\":\"B\"\x7d"
    rfl rfl rfl (by decide) (by decide)
    (by decide) (by decide) (by decide)
    (by decide) (by decide) (by decide)

/-! ### C9: the `max_output_tokens` field of the request body -/

/-- First-match field lookup in the (unique-keyed) request-body object. -/
def findVal : List (String × JsVal) → String → Option JsVal
  | [], _ => none
  | p :: rest, k => if p.1 == k then some p.2 else findVal rest k

/-- Does the `custom` option itself assign `max_output_tokens` (through
the same parse path `buildRequestBody` uses)? -/
def customSetsMaxOutputTokens (o : SendOptions) : Bool :=
  match o.custom with
  | some (.obj fs) => fs.any (fun p => p.1 == "max_output_tokens")
  | some (.str s) =>
    if s = "" then false
    else
      match parseJson s with
      | some (.obj fs) => fs.any (fun p => p.1 == "max_output_tokens")
      | _ => false
  | none => false

theorem findVal_setKey (b : List (String × JsVal)) (k k' : String) (v : JsVal) :
    findVal (setKey b k' v) k = if k' = k then some v else findVal b k := by
  induction b with
  | nil =>
    simp only [setKey, findVal]
    by_cases h : k' = k <;> simp [h]
  | cons p rest ih =>
    simp only [setKey]
    by_cases hp : p.1 = k'
    · rw [if_pos (by simp [hp])]
      by_cases h : k' = k
      · simp [findVal, h]
      · simp [findVal, hp, h]
    · rw [if_neg (by simp [hp])]
      by_cases h : k' = k
      · subst h
        simp [findVal, hp, ih]
      · simp [findVal, ih, h]

theorem mem_keys_setKey (b : List (String × JsVal)) (k : String) (v : JsVal) (a : String)
    (h : a ∈ (setKey b k v).map Prod.fst) : a ∈ b.map Prod.fst ∨ a = k := by
  induction b with
  | nil =>
    simp [setKey] at h
    exact Or.inr h
  | cons p rest ih =>
    simp only [setKey] at h
    by_cases hp : p.1 = k
    · rw [if_pos (by simp [hp])] at h
      simp at h
      rcases h with h | h
      · exact Or.inr h
      · exact Or.inl (by simp; exact Or.inr h)
    · rw [if_neg (by simp [hp])] at h
      simp at h
      rcases h with h | h
      · exact Or.inl (by simp [h])
      · rcases ih (by simpa using h) with h' | h'
        · exact Or.inl (by simp; exact Or.inr (by simpa using h'))
        · exact Or.inr h'

theorem nodup_setKey (b : List (String × JsVal)) (k : String) (v : JsVal)
    (h : (b.map Prod.fst).Nodup) : ((setKey b k v).map Prod.fst).Nodup := by
  induction b with
  | nil => simp [setKey]
  | cons p rest ih =>
    simp only [List.map_cons, List.nodup_cons] at h
    simp only [setKey]
    by_cases hp : p.1 = k
    · rw [if_pos (by simp [hp])]
      simp only [List.map_cons, List.nodup_cons]
      exact ⟨by rw [← hp]; exact h.1, h.2⟩
    · rw [if_neg (by simp [hp])]
      simp only [List.map_cons, List.nodup_cons]
      refine ⟨fun hmem => ?_, ih h.2⟩
      rcases mem_keys_setKey rest k v p.1 hmem with h' | h'
      · exact h.1 h'
      · exact hp h'

theorem findVal_mergeCustom (fs : List (String × Json)) :
    ∀ (b : List (String × JsVal)) (k : String), (∀ p ∈ fs, p.1 ≠ k) →
      findVal (mergeCustom b fs) k = findVal b k := by
  induction fs with
  | nil => intro b k _; rfl
  | cons f fs' ih =>
    intro b k h
    show findVal (mergeCustom (setKey b f.1 (.val f.2)) fs') k = _
    rw [ih _ _ fun p hp => h p (List.mem_cons_of_mem _ hp),
      findVal_setKey, if_neg (h f (List.mem_cons_self _ _))]

theorem nodup_mergeCustom (fs : List (String × Json)) :
    ∀ b : List (String × JsVal), (b.map Prod.fst).Nodup →
      ((mergeCustom b fs).map Prod.fst).Nodup := by
  induction fs with
  | nil => intro b h; exact h
  | cons f fs' ih =>
    intro b h
    exact ih _ (nodup_setKey _ _ _ h)

theorem lookup_serialize_not_mem (b : List (String × JsVal)) (k : String)
    (h : k ∉ b.map Prod.fst) : (serializeBody b).lookup k = none := by
  induction b with
  | nil => rfl
  | cons p rest ih =>
    simp only [List.map_cons] at h
    have hk : p.1 ≠ k := fun he => h (by simp [he])
    have hrest : k ∉ rest.map Prod.fst := fun hm => h (by simp [hm])
    cases hv : p.2 with
    | undef =>
      simp only [serializeBody, List.filterMap_cons, hv]
      exact ih hrest
    | val j =>
      simp only [serializeBody, List.filterMap_cons, hv, List.lookup]
      rw [show (k == p.1) = false from beq_eq_false_iff_ne.mpr fun he => hk he.symm]
      exact ih hrest

theorem lookup_serialize (b : List (String × JsVal)) (k : String)
    (h : (b.map Prod.fst).Nodup) :
    (serializeBody b).lookup k =
      (match findVal b k with
       | some JsVal.undef => none
       | some (JsVal.val j) => some j
       | none => none) := by
  induction b with
  | nil => rfl
  | cons p rest ih =>
    simp only [List.map_cons, List.nodup_cons] at h
    cases hv : p.2 with
    | undef =>
      simp only [serializeBody, List.filterMap_cons, hv, findVal]
      by_cases hk : p.1 = k
      · rw [if_pos (by simpa using hk)]
        subst hk
        exact lookup_serialize_not_mem rest p.1 h.1
      · rw [if_neg (by simpa using hk)]
        exact ih h.2
    | val j =>
      simp only [serializeBody, List.filterMap_cons, hv, findVal]
      by_cases hk : p.1 = k
      · rw [if_pos (by simpa using hk)]
        simp only [List.lookup]
        rw [show (k == p.1) = true from beq_iff_eq.mpr hk.symm]
      · rw [if_neg (by simpa using hk)]
        simp only [List.lookup]
        rw [show (k == p.1) = false from beq_eq_false_iff_ne.mpr fun he => hk he.symm]
        exact ih h.2

/-- Counterexample for C9 as stated: with no `max_tokens` supplied but a
`custom` parameter object assigning `max_output_tokens: 99`, the
serialized request body does contain the field — the custom shallow
merge is applied last and can introduce it independently of
`max_tokens`. -/
theorem maxTokensFieldCounterexample :
    (serializeBody (buildRequestBody []
        ⟨none, none, none, none, none,
         some (CustomParam.obj [("max_output_tokens", Json.num 99)]), true⟩)).lookup
      "max_output_tokens" = some (Json.num 99) ∧
    (⟨none, none, none, none, none,
      some (CustomParam.obj [("max_output_tokens", Json.num 99)]), true⟩ :
        SendOptions).max_tokens = none :=
  ⟨rfl, rfl⟩

/-- The `max_output_tokens` binding that `bodyWithMaxTokens` produces. -/
def expectedMaxTokens : Option (Option Int) → Option JsVal
  | some (some n) => some (if n = 0 then JsVal.undef else JsVal.val (Json.num n))
  | some none => some JsVal.undef
  | none => none

theorem setKey_other (b : List (String × JsVal)) (k' : String) (v : JsVal)
    (w : Option JsVal) (hk : k' ≠ "max_output_tokens")
    (h : (b.map Prod.fst).Nodup ∧ findVal b "max_output_tokens" = w) :
    ((setKey b k' v).map Prod.fst).Nodup ∧
      findVal (setKey b k' v) "max_output_tokens" = w :=
  ⟨nodup_setKey _ _ _ h.1, by rw [findVal_setKey, if_neg hk, h.2]⟩

theorem bodyWithOptJson_other (k : String) (x : Option Json)
    (b : List (String × JsVal)) (w : Option JsVal) (hk : k ≠ "max_output_tokens")
    (h : (b.map Prod.fst).Nodup ∧ findVal b "max_output_tokens" = w) :
    ((bodyWithOptJson k x b).map Prod.fst).Nodup ∧
      findVal (bodyWithOptJson k x b) "max_output_tokens" = w := by
  cases x with
  | none => exact h
  | some t => exact setKey_other b k (.val t) w hk h

theorem bodyWithModel_other (o : SendOptions) (b : List (String × JsVal))
    (w : Option JsVal)
    (h : (b.map Prod.fst).Nodup ∧ findVal b "max_output_tokens" = w) :
    ((bodyWithModel o b).map Prod.fst).Nodup ∧
      findVal (bodyWithModel o b) "max_output_tokens" = w := by
  cases hm : o.model with
  | none => simpa only [bodyWithModel, hm] using h
  | some m =>
    simp only [bodyWithModel, hm]
    by_cases hme : m = ""
    · simpa [hme] using h
    · rw [if_neg hme]
      exact setKey_other b "model" _ w (by decide) h

theorem bodyWithReasoning_other (o : SendOptions) (b : List (String × JsVal))
    (w : Option JsVal)
    (h : (b.map Prod.fst).Nodup ∧ findVal b "max_output_tokens" = w) :
    ((bodyWithReasoning o b).map Prod.fst).Nodup ∧
      findVal (bodyWithReasoning o b) "max_output_tokens" = w := by
  unfold bodyWithReasoning
  split
  · exact setKey_other b "reasoning" _ w (by decide) h
  · exact h

theorem bodyWithMaxTokens_sets (o : SendOptions) (b : List (String × JsVal))
    (h : (b.map Prod.fst).Nodup ∧ findVal b "max_output_tokens" = none) :
    ((bodyWithMaxTokens o b).map Prod.fst).Nodup ∧
      findVal (bodyWithMaxTokens o b) "max_output_tokens" =
        expectedMaxTokens o.max_tokens := by
  cases hmt : o.max_tokens with
  | none =>
    simp only [bodyWithMaxTokens, hmt, expectedMaxTokens]
    exact ⟨h.1, h.2⟩
  | some mt =>
    simp only [bodyWithMaxTokens, hmt]
    refine ⟨nodup_setKey _ _ _ h.1, ?_⟩
    rw [findVal_setKey, if_pos rfl]
    cases mt <;> rfl

theorem bodyWithCustom_other (o : SendOptions) (b : List (String × JsVal))
    (w : Option JsVal) (hc : customSetsMaxOutputTokens o = false)
    (h : (b.map Prod.fst).Nodup ∧ findVal b "max_output_tokens" = w) :
    ((bodyWithCustom o b).map Prod.fst).Nodup ∧
      findVal (bodyWithCustom o b) "max_output_tokens" = w := by
  have hfields : ∀ fs : List (String × Json),
      fs.any (fun p => p.1 == "max_output_tokens") = false →
      ((mergeCustom b fs).map Prod.fst).Nodup ∧
        findVal (mergeCustom b fs) "max_output_tokens" = w := by
    intro fs hfs
    have hne : ∀ p ∈ fs, p.1 ≠ "max_output_tokens" := by
      intro p hp
      have := List.any_eq_false.mp hfs p hp
      simpa using this
    exact ⟨nodup_mergeCustom fs b h.1, by rw [findVal_mergeCustom fs b _ hne, h.2]⟩
  cases hcu : o.custom with
  | none => simpa only [bodyWithCustom, hcu] using h
  | some c =>
    cases c with
    | obj fs =>
      simp only [customSetsMaxOutputTokens, hcu] at hc
      simp only [bodyWithCustom, hcu]
      exact hfields fs hc
    | str s =>
      simp only [customSetsMaxOutputTokens, hcu] at hc
      simp only [bodyWithCustom, hcu]
      by_cases hs : s = ""
      · simpa [hs] using h
      · rw [if_neg hs] at hc ⊢
        cases hps : parseJson s with
        | none => exact h
        | some j =>
          rw [hps] at hc
          cases j with
          | obj fs => exact hfields fs hc
          | null => exact h
          | bool x => exact h
          | num x => exact h
          | str x => exact h
          | arr x => exact h

/-- C9 (amended).  Provided the caller-supplied custom parameters do not
themselves assign `max_output_tokens`, the serialized request body
contains `max_output_tokens` if and only if `max_tokens` was supplied
and is neither null nor zero, and then its value is exactly the supplied
limit; a null or zero `max_tokens` assigns `undefined`, which
serialization omits. -/
theorem maxTokensFieldAmended (msgs : List InMessage) (o : SendOptions)
    (hc : customSetsMaxOutputTokens o = false) :
    (serializeBody (buildRequestBody msgs o)).lookup "max_output_tokens" =
      (match o.max_tokens with
       | some (some n) => if n = 0 then none else some (Json.num n)
       | _ => none) := by
  have base : ((bodyBase msgs o).map Prod.fst).Nodup ∧
      findVal (bodyBase msgs o) "max_output_tokens" = none := by
    constructor
    · simp [bodyBase, List.nodup_cons]
    · rfl
  have hfin := bodyWithCustom_other o _ _ hc
    (bodyWithReasoning_other o _ _
      (bodyWithOptJson_other "top_p" o.top_p _ _ (by decide)
        (bodyWithMaxTokens_sets o _
          (bodyWithOptJson_other "temperature" o.temperature _ _ (by decide)
            (bodyWithModel_other o _ _ base)))))
  rw [show buildRequestBody msgs o = bodyWithCustom o
    (bodyWithReasoning o
      (bodyWithOptJson "top_p" o.top_p
        (bodyWithMaxTokens o
          (bodyWithOptJson "temperature" o.temperature
            (bodyWithModel o (bodyBase msgs o)))))) from rfl,
    lookup_serialize _ _ hfin.1, hfin.2]
  cases hmt : o.max_tokens with
  | none => rfl
  | some mt =>
    cases mt with
    | none => rfl
    | some n =>
      by_cases hn : n = 0
      · simp [expectedMaxTokens, hn]
      · simp [expectedMaxTokens, hn]

/-- Witness for the amended C9: a supplied limit of 7 with benign custom
parameters serializes to `max_output_tokens: 7`; a null limit and a zero
limit leave the field absent. -/
theorem maxTokensFieldAmended_witness :
    (serializeBody (buildRequestBody []
        ⟨none, none, none, some (some 7), none, none, true⟩)).lookup
      "max_output_tokens" = some (Json.num 7) ∧
    (serializeBody (buildRequestBody []
        ⟨none, none, none, some none, none, none, true⟩)).lookup
      "max_output_tokens" = none ∧
    (serializeBody (buildRequestBody []
        ⟨none, none, none, some (some 0), none, none, true⟩)).lookup
      "max_output_tokens" = none := by
  refine ⟨?_, ?_, ?_⟩
  · have h := maxTokensFieldAmended [] ⟨none, none, none, some (some 7), none, none, true⟩ rfl
    rw [h]
    rfl
  · have h := maxTokensFieldAmended [] ⟨none, none, none, some none, none, none, true⟩ rfl
    rw [h]
  · have h := maxTokensFieldAmended [] ⟨none, none, none, some (some 0), none, none, true⟩ rfl
    rw [h]
    rfl

end ResponsesService

section ParserSmoke
open ResponsesService
example : parseJson "\x7b\"a\":1,\"b\":[true,null,\"x\"]\x7d" =
    some (Json.obj [("a", Json.num 1), ("b", Json.arr [Json.bool true, Json.null, Json.str "x"])]) := rfl
example : parseJson "[DONE]" = none := rfl
example : parseJson "" = none := rfl
example : parseJson " -12 " = some (Json.num (-12)) := rfl
example : parseJson "\"a\\nb\"" = some (Json.str "a\nb") := rfl
end ParserSmoke
